import Mathlib

/-!
Verification of the availability aggregation and mutation core of the
tennis-court-scheduler repository.

The repository holds several prototype variants of the same application:
* `src/src/App.tsx` — the main React client: `normalizeEntries`,
  `readEntriesFromLocalStorage`, `useGameSummaries`, `setAvailability`,
  `bestGame`.
* `src/src/supabaseAvailability.ts` — a Supabase REST client
  (`saveAvailabilityToSupabase`, delete-then-insert replace) followed, after a
  document separator, by a SQLite-backed vite middleware (`normalizeEntries`,
  `handleWrite`, `createHandler`).
* `src/unnamed/part_000` — a file-backed vite middleware (`isValidEntry`,
  `loadEntries`, `registerAvailabilityRoutes`).
* `src/unnamed/part_003` — an in-memory court/day/slot variant with a
  distance eligibility filter (`useSuggestedSession`).
* `src/unnamed/part_005` — a standalone SQLite HTTP server
  (`normalizeEntries`, `handleApi`).

Untrusted JSON input is modelled by `RawField` / `RawEntry` / `RawValue`.
Identifiers are modelled by `Int` (every id the code accepts is an integer JS
number, and the validated range is far below 2^53, so JS number arithmetic on
them is exact); court distances are modelled by `ℚ` (the sources compare exact
decimal literals with `<=`, which agrees with rational comparison on the range
of values involved).
-/

/-- One field of an untrusted object, as seen through the JavaScript numeric
conversions the sources apply. `absent` is a missing field (`Number(undefined)`
is `NaN`), `int n` an integer JS number, `nonIntNum` a number failing
`Number.isInteger` (`NaN`, `1.5`, `Infinity`), `intString n` a non-number value
that `Number` coerces to the integer `n` (such as the string `"7"`), and
`other` any other value (coerces to `NaN` or to a non-integer). -/
inductive RawField where
  | absent
  | int (n : Int)
  | nonIntNum
  | intString (n : Int)
  | other
  deriving DecidableEq

/-- `Number(field)` followed by `Number.isInteger`: the conversion used by
`App.tsx` `normalizeEntries` and by `part_005` `normalizeEntries`, which coerce
the raw field before the integer check. -/
def numCoerce : RawField → Option Int
  | .int n => some n
  | .intString n => some n
  | _ => none

/-- The bare `Number.isInteger(field)` check, with no prior coercion: only an
actual integer JS number passes. Used by the SQLite vite plugin in
`supabaseAvailability.ts` and by `isValidEntry` in `part_000`. -/
def rawInt? : RawField → Option Int
  | .int n => some n
  | _ => none

/-- One element of an untrusted `entries` array: either a value failing the
`item && typeof item === "object"` guard, or an object read through its
`playerId` and `gameId` fields. -/
inductive RawEntry where
  | nonObject
  | obj (playerId gameId : RawField)
  deriving DecidableEq

/-- An untrusted `entries` value: an array of raw entries, or any non-array
value (`Array.isArray` fails). -/
inductive RawValue where
  | nonArray
  | arr (items : List RawEntry)
  deriving DecidableEq

/-- An availability fact `{playerId, gameId}` — the atomic unit of the data
model. -/
structure AvailabilityEntry where
  playerId : Int
  gameId : Int
  deriving DecidableEq

/-- Helper for `dedupFirst`: walk the list keeping the first occurrence of
each element, remembering in `seen` the elements already emitted. -/
def dedupFirstAux {α : Type} [DecidableEq α] (seen : List α) : List α → List α
  | [] => []
  | x :: xs =>
    if x ∈ seen then dedupFirstAux seen xs
    else x :: dedupFirstAux (x :: seen) xs

/-- First-occurrence, order-preserving deduplication. This is the behaviour of
a JS `Map` keyed by the `playerId:gameId` template string (a repeated `set` on
an existing key keeps the key's original position, and every stored value here
is determined by its key; the decimal key string is injective on integer
pairs), and likewise of `Array.from(new Set(xs))`. -/
def dedupFirst {α : Type} [DecidableEq α] (l : List α) : List α :=
  dedupFirstAux [] l

theorem mem_dedupFirstAux {α : Type} [DecidableEq α] (a : α) (l : List α) :
    ∀ seen : List α, a ∈ dedupFirstAux seen l ↔ a ∈ l ∧ a ∉ seen := by
  induction l with
  | nil => intro seen; simp [dedupFirstAux]
  | cons x xs ih =>
    intro seen
    by_cases hx : x ∈ seen
    · rw [dedupFirstAux, if_pos hx, ih]
      constructor
      · rintro ⟨h1, h2⟩; exact ⟨List.mem_cons_of_mem _ h1, h2⟩
      · rintro ⟨h1, h2⟩
        rcases List.mem_cons.mp h1 with h1 | h1
        · exact absurd (h1 ▸ hx) h2
        · exact ⟨h1, h2⟩
    · rw [dedupFirstAux, if_neg hx]
      rw [List.mem_cons, ih]
      constructor
      · rintro (rfl | ⟨h1, h2⟩)
        · exact ⟨List.mem_cons_self _ _, hx⟩
        · refine ⟨List.mem_cons_of_mem _ h1, fun hs => h2 (List.mem_cons_of_mem _ hs)⟩
      · rintro ⟨h1, h2⟩
        by_cases hax : a = x
        · exact Or.inl hax
        · rcases List.mem_cons.mp h1 with h | h
          · exact absurd h hax
          · refine Or.inr ⟨h, fun hs => ?_⟩
            rcases List.mem_cons.mp hs with h' | h'
            · exact hax h'
            · exact h2 h'

theorem mem_dedupFirst {α : Type} [DecidableEq α] (a : α) (l : List α) :
    a ∈ dedupFirst l ↔ a ∈ l := by
  rw [dedupFirst, mem_dedupFirstAux]
  simp

theorem nodup_dedupFirstAux {α : Type} [DecidableEq α] (l : List α) :
    ∀ seen : List α, (dedupFirstAux seen l).Nodup := by
  induction l with
  | nil => intro seen; simp [dedupFirstAux]
  | cons x xs ih =>
    intro seen
    by_cases hx : x ∈ seen
    · rw [dedupFirstAux, if_pos hx]; exact ih seen
    · rw [dedupFirstAux, if_neg hx]
      refine List.nodup_cons.mpr ⟨?_, ih _⟩
      rw [mem_dedupFirstAux]
      rintro ⟨-, h2⟩
      exact h2 (List.mem_cons_self _ _)

theorem nodup_dedupFirst {α : Type} [DecidableEq α] (l : List α) :
    (dedupFirst l).Nodup :=
  nodup_dedupFirstAux l []

theorem dedupFirstAux_eq_self {α : Type} [DecidableEq α] (l : List α) :
    ∀ seen : List α, l.Nodup → (∀ a ∈ l, a ∉ seen) → dedupFirstAux seen l = l := by
  induction l with
  | nil => intro seen _ _; rfl
  | cons x xs ih =>
    intro seen hnd hseen
    rcases List.nodup_cons.mp hnd with ⟨hx, hxs⟩
    rw [dedupFirstAux, if_neg (hseen x (List.mem_cons_self _ _))]
    congr 1
    refine ih _ hxs fun a ha => ?_
    intro hmem
    rcases List.mem_cons.mp hmem with rfl | hmem
    · exact hx ha
    · exact hseen a (List.mem_cons_of_mem _ ha) hmem

theorem dedupFirst_eq_self_of_nodup {α : Type} [DecidableEq α] (l : List α)
    (h : l.Nodup) : dedupFirst l = l :=
  dedupFirstAux_eq_self l [] h (by simp)

theorem dedupFirstAux_congr_seen {α : Type} [DecidableEq α] (l : List α) :
    ∀ seen₁ seen₂ : List α, (∀ a : α, a ∈ seen₁ ↔ a ∈ seen₂) →
    dedupFirstAux seen₁ l = dedupFirstAux seen₂ l := by
  induction l with
  | nil => intro seen₁ seen₂ _; rfl
  | cons x xs ih =>
    intro seen₁ seen₂ hiff
    by_cases hx : x ∈ seen₁
    · rw [dedupFirstAux, if_pos hx, dedupFirstAux, if_pos ((hiff x).mp hx)]
      exact ih _ _ hiff
    · rw [dedupFirstAux, if_neg hx, dedupFirstAux,
        if_neg (fun h => hx ((hiff x).mpr h))]
      congr 1
      refine ih _ _ fun a => ?_
      simp only [List.mem_cons]
      exact or_congr Iff.rfl (hiff a)

theorem dedupFirstAux_seen_of_not_mem {α : Type} [DecidableEq α] (x : α)
    (l : List α) : ∀ seen : List α, x ∉ l →
    dedupFirstAux (x :: seen) l = dedupFirstAux seen l := by
  induction l with
  | nil => intro seen _; rfl
  | cons y ys ih =>
    intro seen hx
    have hyx : y ≠ x := fun h => hx (h ▸ List.mem_cons_self _ _)
    have hxys : x ∉ ys := fun h => hx (List.mem_cons_of_mem _ h)
    by_cases hy : y ∈ seen
    · rw [dedupFirstAux, if_pos (List.mem_cons_of_mem _ hy), dedupFirstAux,
        if_pos hy, ih _ hxys]
    · have hy' : y ∉ x :: seen := by
        intro hmem
        rcases List.mem_cons.mp hmem with h | h
        · exact hyx h
        · exact hy h
      rw [dedupFirstAux, if_neg hy', dedupFirstAux, if_neg hy]
      congr 1
      calc dedupFirstAux (y :: x :: seen) ys
          = dedupFirstAux (x :: y :: seen) ys := by
            refine dedupFirstAux_congr_seen ys _ _ fun a => ?_
            simp only [List.mem_cons]
            tauto
        _ = dedupFirstAux (y :: seen) ys := ih _ hxys

theorem dedupFirstAux_filter {α : Type} [DecidableEq α] (p : α → Bool)
    (l : List α) : ∀ seen : List α,
    dedupFirstAux seen (l.filter p) = (dedupFirstAux seen l).filter p := by
  induction l with
  | nil => intro seen; rfl
  | cons x xs ih =>
    intro seen
    by_cases hp : p x = true
    · rw [List.filter_cons_of_pos hp]
      by_cases hx : x ∈ seen
      · rw [dedupFirstAux, if_pos hx, dedupFirstAux, if_pos hx]
        exact ih seen
      · rw [dedupFirstAux, if_neg hx, dedupFirstAux, if_neg hx,
          List.filter_cons_of_pos hp]
        congr 1
        exact ih _
    · rw [List.filter_cons_of_neg hp]
      by_cases hx : x ∈ seen
      · rw [dedupFirstAux, if_pos hx]
        exact ih seen
      · rw [dedupFirstAux, if_neg hx, List.filter_cons_of_neg hp]
        have hnot : x ∉ xs.filter p := by
          intro hmem
          exact hp (List.of_mem_filter hmem)
        rw [← dedupFirstAux_seen_of_not_mem x _ seen hnot]
        exact ih _

theorem dedupFirst_filter {α : Type} [DecidableEq α] (p : α → Bool) (l : List α) :
    dedupFirst (l.filter p) = (dedupFirst l).filter p := by
  rw [dedupFirst, dedupFirst]
  exact dedupFirstAux_filter p l []

theorem dedupFirst_length_pos {α : Type} [DecidableEq α] (x : α) (l : List α)
    (h : x ∈ l) : 0 < (dedupFirst l).length := by
  cases hl : dedupFirst l with
  | nil =>
    exfalso
    have := (mem_dedupFirst x l).mpr h
    rw [hl] at this
    simp at this
  | cons a as => simp

/-- What a persistence medium can hand to a read path: no stored content
(`localStorage.getItem` returned `null`/the empty string, or `readFile`
rejected), content that `JSON.parse` rejects, or a parsed JSON value. -/
inductive StoredPayload where
  | missing
  | unparsable
  | parsed (v : RawValue)
  deriving DecidableEq

namespace App

/-- Roster entry of `src/src/App.tsx` (`interface Player`). -/
structure Player where
  id : Int
  name : String
  city : String
  rating : String
  deriving DecidableEq

/-- Home/away marker of a game (`homeAway: "Home" | "Away"`). -/
inductive HomeAway where
  | home
  | away
  deriving DecidableEq

/-- Catalog entry of `src/src/App.tsx` (`interface Game`). -/
structure Game where
  id : Int
  opponent : String
  day : String
  date : String
  time : String
  homeAway : HomeAway
  location : String
  deriving DecidableEq

/-- One loop step of `App.tsx` `normalizeEntries`: skip non-objects, coerce
both fields with `Number`, require `Number.isInteger` on both and positivity,
otherwise drop the entry silently (`continue`). -/
def validEntry? : RawEntry → Option AvailabilityEntry
  | .nonObject => none
  | .obj p g =>
    match numCoerce p, numCoerce g with
    | some playerId, some gameId =>
      if playerId ≤ 0 ∨ gameId ≤ 0 then none else some ⟨playerId, gameId⟩
    | _, _ => none

/-- `App.tsx` `normalizeEntries`: a non-array input yields `[]`; an array is
validated entry by entry and deduplicated through a `Map` keyed by the
`playerId:gameId` string. The loop's interleaved validate-and-`Map.set` equals
validating first and then keeping first occurrences, because `Map.set` on an
existing key keeps the original position and stores a value equal to the one
already there. -/
def normalizeEntries : RawValue → List AvailabilityEntry
  | .nonArray => []
  | .arr items => dedupFirst (items.filterMap validEntry?)

/-- `App.tsx` `readEntriesFromLocalStorage`: absent/empty raw string returns
`[]`, a `JSON.parse` throw is caught and returns `[]` (the whole body is in a
`try`/`catch` that returns `[]`), and a parsed value goes through
`normalizeEntries`. -/
def readEntriesFromLocalStorage : StoredPayload → List AvailabilityEntry
  | .missing => []
  | .unparsable => []
  | .parsed v => normalizeEntries v

/-- `Array.prototype.findIndex`, with `-1` modelled as `none`. -/
def jsFindIndex {α : Type} (p : α → Bool) : List α → Option Nat
  | [] => none
  | x :: xs => if p x then some 0 else (jsFindIndex p xs).map (· + 1)

/-- `array.splice(i, 1)`: remove the element at index `i`. -/
def removeAt {α : Type} : List α → Nat → List α
  | [], _ => []
  | _ :: xs, 0 => xs
  | x :: xs, n + 1 => x :: removeAt xs n

/-- `App.tsx` `setAvailability` (the state updater passed to `setEntries`):
look up the `(playerId, gameId)` cell; append it when marking available and it
is absent, splice it out when marking unavailable and it is present, otherwise
leave the list unchanged. -/
def setAvailability (entries : List AvailabilityEntry) (playerId gameId : Int)
    (available : Bool) : List AvailabilityEntry :=
  match jsFindIndex (fun e => e.playerId = playerId ∧ e.gameId = gameId) entries with
  | none => if available then entries ++ [⟨playerId, gameId⟩] else entries
  | some index => if available then entries else removeAt entries index

/-- One row of `useGameSummaries`' output. -/
structure Summary where
  game : Game
  availablePlayers : List Player
  count : Nat
  deriving DecidableEq

/-- `App.tsx` `useGameSummaries`: for every game of the catalog (in catalog
order), collect the distinct `playerId`s having an entry for that game
(`Array.from(new Set(...))`, first-occurrence order), resolve each against the
roster (`players.find`), drop unresolved ids (`filter(Boolean)`), and report
the resolved players together with their number. -/
def useGameSummaries (players : List Player) (games : List Game)
    (entries : List AvailabilityEntry) : List Summary :=
  games.map fun game =>
    let availablePlayerIds := (entries.filter (fun e => e.gameId = game.id)).map
      (fun e => e.playerId)
    let uniqueIds := dedupFirst availablePlayerIds
    let availablePlayers := uniqueIds.filterMap
      (fun id => players.find? (fun p => p.id = id))
    ⟨game, availablePlayers, availablePlayers.length⟩

/-- The stable insertion step for `[...gameSummaries].sort((a, b) => b.count -
a.count)`: an already placed summary stays in front only when its count is
strictly larger, so summaries with equal counts keep their original relative
order — exactly the stable, descending-by-count order `Array.prototype.sort`
produces. -/
def insertByCountDesc (s : Summary) : List Summary → List Summary
  | [] => [s]
  | t :: ts => if s.count < t.count then t :: insertByCountDesc s ts else s :: t :: ts

/-- The stable descending-by-count sort used by `bestGame`. -/
def sortByCountDesc : List Summary → List Summary
  | [] => []
  | s :: ss => insertByCountDesc s (sortByCountDesc ss)

/-- `App.tsx` `bestGame`: sort the summaries by count (descending, stable) and
return the head when its count is positive, else `null` (`sorted[0]?.count >
0 ? sorted[0] : null`). -/
def bestGame (summaries : List Summary) : Option Summary :=
  match sortByCountDesc summaries with
  | [] => none
  | s :: _ => if 0 < s.count then some s else none

end App

namespace FileServer

/-- `part_000` `isValidEntry`: the entry must be a non-null object whose raw
`playerId` and `gameId` fields pass `Number.isInteger` (no coercion and no
positivity check in this variant). -/
def isValidEntry : RawEntry → Bool
  | .obj (.int _) (.int _) => true
  | _ => false

/-- `part_000` `loadEntries`: a rejected `readFile` and a `JSON.parse` throw
are both caught and yield `[]`, a non-array parse yields `[]`, and an array is
filtered by `isValidEntry`. -/
def loadEntries : StoredPayload → List RawEntry
  | .missing => []
  | .unparsable => []
  | .parsed .nonArray => []
  | .parsed (.arr items) => items.filter isValidEntry

end FileServer

namespace App

theorem validEntry?_pos {it : RawEntry} {f : AvailabilityEntry}
    (h : validEntry? it = some f) : 0 < f.playerId ∧ 0 < f.gameId := by
  cases it with
  | nonObject => simp [validEntry?] at h
  | obj p g =>
    cases hp : numCoerce p with
    | none => simp [validEntry?, hp] at h
    | some pid =>
      cases hg : numCoerce g with
      | none => simp [validEntry?, hp, hg] at h
      | some gid =>
        simp only [validEntry?, hp, hg] at h
        by_cases hpos : pid ≤ 0 ∨ gid ≤ 0
        · simp [hpos] at h
        · rw [if_neg hpos] at h
          cases h
          push_neg at hpos
          exact ⟨hpos.1, hpos.2⟩

theorem mem_normalizeEntries {items : List RawEntry} {f : AvailabilityEntry} :
    f ∈ normalizeEntries (.arr items) ↔ ∃ it ∈ items, validEntry? it = some f := by
  show f ∈ dedupFirst (items.filterMap validEntry?) ↔ _
  rw [mem_dedupFirst, List.mem_filterMap]

end App

/-- Claim C3: `App.tsx` `normalizeEntries` keeps exactly the array items that
are objects whose two fields are present and coerce to positive integers
(everything else is dropped silently), and deduplicates the kept entries by
`(playerId, gameId)`: the result has no duplicate pair, every pair is
positive, and on the input `[{playerId: 1, gameId: 2}, {playerId: 1, gameId:
2}, {playerId: -1, gameId: 3}, {playerId: 2}]` the result is exactly
`[(1, 2)]`. -/
theorem claim_C3_normalize_valid_dedup (items : List RawEntry) :
    (App.normalizeEntries (.arr items)).Nodup
    ∧ (∀ f ∈ App.normalizeEntries (.arr items), 0 < f.playerId ∧ 0 < f.gameId)
    ∧ (∀ f : AvailabilityEntry,
        f ∈ App.normalizeEntries (.arr items)
          ↔ ∃ it ∈ items, App.validEntry? it = some f)
    ∧ App.normalizeEntries (.arr
        [.obj (.int 1) (.int 2), .obj (.int 1) (.int 2),
         .obj (.int (-1)) (.int 3), .obj (.int 2) .absent])
      = [⟨1, 2⟩] := by
  refine ⟨nodup_dedupFirst _, ?_, fun f => App.mem_normalizeEntries, by decide⟩
  intro f hf
  rcases App.mem_normalizeEntries.mp hf with ⟨it, -, h⟩
  exact App.validEntry?_pos h

/-- Witness for C3 at a concrete input. -/
theorem claim_C3_normalize_valid_dedup_witness :
    (App.normalizeEntries (.arr [.obj (.int 1) (.int 2), .nonObject])).Nodup :=
  (claim_C3_normalize_valid_dedup [.obj (.int 1) (.int 2), .nonObject]).1

namespace App

theorem jsFindIndex_eq_none_iff {α : Type} (p : α → Bool) (l : List α) :
    jsFindIndex p l = none ↔ ∀ a ∈ l, ¬ p a = true := by
  induction l with
  | nil => simp [jsFindIndex]
  | cons x xs ih =>
    by_cases hp : p x = true
    · simp [jsFindIndex, hp]
    · simp [jsFindIndex, hp, ih]

theorem jsFindIndex_spec {α : Type} (p : α → Bool) (l : List α) (i : Nat)
    (h : jsFindIndex p l = some i) :
    ∃ (l₁ l₂ : List α) (x : α), l = l₁ ++ x :: l₂ ∧ p x = true
      ∧ (∀ a ∈ l₁, ¬ p a = true) ∧ l₁.length = i ∧ removeAt l i = l₁ ++ l₂ := by
  induction l generalizing i with
  | nil => simp [jsFindIndex] at h
  | cons x xs ih =>
    by_cases hp : p x = true
    · rw [jsFindIndex, if_pos hp] at h
      cases h
      exact ⟨[], xs, x, rfl, hp, by simp, rfl, rfl⟩
    · rw [jsFindIndex, if_neg hp] at h
      cases hfind : jsFindIndex p xs with
      | none => rw [hfind] at h; simp at h
      | some j =>
        rw [hfind, Option.map_some'] at h
        cases h
        obtain ⟨l₁, l₂, y, heq, hpy, hpre, hlen, hrem⟩ := ih j hfind
        refine ⟨x :: l₁, l₂, y, by rw [heq]; rfl, hpy, ?_, by simp [hlen], ?_⟩
        · intro a ha
          rcases List.mem_cons.mp ha with rfl | ha
          · exact hp
          · exact hpre a ha
        · show removeAt (x :: xs) (j + 1) = x :: l₁ ++ l₂
          rw [removeAt, hrem]
          rfl

theorem setAvailability_true_of_mem (entries : List AvailabilityEntry)
    (playerId gameId : Int)
    (h : (⟨playerId, gameId⟩ : AvailabilityEntry) ∈ entries) :
    setAvailability entries playerId gameId true = entries := by
  unfold setAvailability
  split
  · next heq =>
    exfalso
    rw [jsFindIndex_eq_none_iff] at heq
    exact (heq _ h) (by simp)
  · next i heq => simp

theorem setAvailability_true_of_not_mem (entries : List AvailabilityEntry)
    (playerId gameId : Int)
    (h : (⟨playerId, gameId⟩ : AvailabilityEntry) ∉ entries) :
    setAvailability entries playerId gameId true
      = entries ++ [⟨playerId, gameId⟩] := by
  unfold setAvailability
  split
  · next heq => simp
  · next i heq =>
    exfalso
    obtain ⟨l₁, l₂, x, hl, hpx, -, -, -⟩ := jsFindIndex_spec _ entries i heq
    simp only [decide_eq_true_eq] at hpx
    have hx : x = ⟨playerId, gameId⟩ := by
      cases x
      simp only at hpx
      rw [hpx.1, hpx.2]
    apply h
    rw [hl, ← hx]
    exact List.mem_append.mpr (Or.inr (List.mem_cons_self _ _))

theorem setAvailability_false_of_not_mem (entries : List AvailabilityEntry)
    (playerId gameId : Int)
    (h : (⟨playerId, gameId⟩ : AvailabilityEntry) ∉ entries) :
    setAvailability entries playerId gameId false = entries := by
  unfold setAvailability
  split
  · next heq => simp
  · next i heq =>
    exfalso
    obtain ⟨l₁, l₂, x, hl, hpx, -, -, -⟩ := jsFindIndex_spec _ entries i heq
    simp only [decide_eq_true_eq] at hpx
    have hx : x = ⟨playerId, gameId⟩ := by
      cases x
      simp only at hpx
      rw [hpx.1, hpx.2]
    apply h
    rw [hl, ← hx]
    exact List.mem_append.mpr (Or.inr (List.mem_cons_self _ _))

theorem setAvailability_false_not_mem_result (entries : List AvailabilityEntry)
    (playerId gameId : Int) (hnd : entries.Nodup) :
    (⟨playerId, gameId⟩ : AvailabilityEntry)
      ∉ setAvailability entries playerId gameId false := by
  unfold setAvailability
  split
  · next heq =>
    rw [jsFindIndex_eq_none_iff] at heq
    simp only [Bool.false_eq_true, if_false]
    intro hmem
    exact (heq _ hmem) (by simp)
  · next i heq =>
    obtain ⟨l₁, l₂, x, hl, hpx, hpre, hlen, hrem⟩ := jsFindIndex_spec _ entries i heq
    simp only [decide_eq_true_eq] at hpx
    have hx : x = ⟨playerId, gameId⟩ := by
      cases x
      simp only at hpx
      rw [hpx.1, hpx.2]
    subst hx
    simp only [Bool.false_eq_true, if_false]
    rw [hrem]
    rw [hl] at hnd
    intro hmem
    rcases List.mem_append.mp hmem with hm | hm
    · exact (hpre _ hm) (by simp)
    · have hnd2 : (AvailabilityEntry.mk playerId gameId :: l₂).Nodup :=
        (List.nodup_append.mp hnd).2.1
      exact (List.nodup_cons.mp hnd2).1 hm

end App

/-- Claim C5: `App.tsx` `setAvailability` (toggle) is idempotent on duplicate
free fact lists: applying the same toggle twice equals applying it once;
marking available when the pair is already present and marking unavailable
when it is absent both leave the list unchanged. -/
theorem claim_C5_toggle_idempotent (entries : List AvailabilityEntry)
    (playerId gameId : Int) (available : Bool) (hnd : entries.Nodup) :
    App.setAvailability
        (App.setAvailability entries playerId gameId available)
        playerId gameId available
      = App.setAvailability entries playerId gameId available
    ∧ ((⟨playerId, gameId⟩ : AvailabilityEntry) ∈ entries →
        App.setAvailability entries playerId gameId true = entries)
    ∧ ((⟨playerId, gameId⟩ : AvailabilityEntry) ∉ entries →
        App.setAvailability entries playerId gameId false = entries) := by
  refine ⟨?_, App.setAvailability_true_of_mem entries playerId gameId,
    App.setAvailability_false_of_not_mem entries playerId gameId⟩
  by_cases hmem : (⟨playerId, gameId⟩ : AvailabilityEntry) ∈ entries
  · cases available with
    | true =>
      rw [App.setAvailability_true_of_mem entries playerId gameId hmem,
        App.setAvailability_true_of_mem entries playerId gameId hmem]
    | false =>
      exact App.setAvailability_false_of_not_mem _ playerId gameId
        (App.setAvailability_false_not_mem_result entries playerId gameId hnd)
  · cases available with
    | true =>
      rw [App.setAvailability_true_of_not_mem entries playerId gameId hmem]
      apply App.setAvailability_true_of_mem
      exact List.mem_append.mpr (Or.inr (List.mem_cons_self _ _))
    | false =>
      rw [App.setAvailability_false_of_not_mem entries playerId gameId hmem,
        App.setAvailability_false_of_not_mem entries playerId gameId hmem]

/-- Witness for C5 at a concrete input: toggling (1, 2) to present twice on a
one-element list equals toggling once, and the two no-op facts hold there. -/
theorem claim_C5_toggle_idempotent_witness :
    App.setAvailability (App.setAvailability [⟨1, 2⟩] 1 2 true) 1 2 true
      = App.setAvailability [⟨1, 2⟩] 1 2 true
    ∧ ((⟨1, 2⟩ : AvailabilityEntry) ∈ [(⟨1, 2⟩ : AvailabilityEntry)] →
        App.setAvailability [⟨1, 2⟩] 1 2 true = [⟨1, 2⟩]) :=
  ⟨(claim_C5_toggle_idempotent [⟨1, 2⟩] 1 2 true (by decide)).1,
    fun _ => (claim_C5_toggle_idempotent [⟨1, 2⟩] 1 2 true (by decide)).2.1
      (by decide)⟩

/-- Claim C10: the persisted-availability read paths are total: a missing
payload, a payload `JSON.parse` rejects, and a payload parsing to a non-array
value all make `App.tsx` `readEntriesFromLocalStorage` and the file-backed
`loadEntries` of `part_000` return the empty entry list instead of an
error. -/
theorem claim_C10_read_paths_total :
    App.readEntriesFromLocalStorage .missing = []
    ∧ App.readEntriesFromLocalStorage .unparsable = []
    ∧ App.readEntriesFromLocalStorage (.parsed .nonArray) = []
    ∧ FileServer.loadEntries .missing = []
    ∧ FileServer.loadEntries .unparsable = []
    ∧ FileServer.loadEntries (.parsed .nonArray) = [] :=
  ⟨rfl, rfl, rfl, rfl, rfl, rfl⟩

theorem length_filterMap_eq_length_filter {α β : Type} (f : α → Option β)
    (l : List α) :
    (l.filterMap f).length = (l.filter (fun a => (f a).isSome)).length := by
  induction l with
  | nil => rfl
  | cons x xs ih =>
    cases hfx : f x with
    | none => simp [List.filterMap_cons, List.filter_cons, hfx, ih]
    | some b => simp [List.filterMap_cons, List.filter_cons, hfx, ih]

theorem countP_or_key {β : Type} [DecidableEq β] (a : β) (q : β → Bool) :
    ∀ D : List β, D.Nodup →
    D.countP (fun d => decide (a = d) || q d)
      = D.countP q + (if a ∈ D ∧ q a = false then 1 else 0) := by
  intro D
  induction D with
  | nil => simp
  | cons x D' ih =>
    intro hD
    rcases List.nodup_cons.mp hD with ⟨hx, hD'⟩
    rw [List.countP_cons, List.countP_cons, ih hD']
    by_cases hxa : a = x
    · subst hxa
      by_cases hqa : q a = true
      · simp [hqa, hx]
      · simp only [Bool.not_eq_true] at hqa
        simp [hqa, hx]
    · have hmem : (a ∈ x :: D' ∧ q a = false) ↔ (a ∈ D' ∧ q a = false) := by
        constructor
        · rintro ⟨h1, h2⟩
          rcases List.mem_cons.mp h1 with h | h
          · exact absurd h hxa
          · exact ⟨h, h2⟩
        · rintro ⟨h1, h2⟩
          exact ⟨List.mem_cons_of_mem _ h1, h2⟩
      rw [if_congr hmem rfl rfl]
      have hhead : (decide (a = x) || q x) = q x := by simp [hxa]
      rw [hhead]
      by_cases hqx : q x = true
      · simp [hqx]
        omega
      · simp only [Bool.not_eq_true] at hqx
        simp [hqx]

theorem countP_exists_key {α β : Type} [DecidableEq β] (key : α → β) :
    ∀ (P : List α) (D : List β), D.Nodup → (P.map key).Nodup →
    D.countP (fun d => decide (∃ p ∈ P, key p = d))
      = P.countP (fun p => decide (key p ∈ D)) := by
  intro P
  induction P with
  | nil => intro D _ _; simp
  | cons p P' ih =>
    intro D hD hkeys
    rw [List.map_cons, List.nodup_cons] at hkeys
    rcases hkeys with ⟨hkp, hkeys'⟩
    have hsplit : D.countP (fun d => decide (∃ x ∈ p :: P', key x = d))
        = D.countP (fun d => decide (key p = d)
            || decide (∃ x ∈ P', key x = d)) := by
      apply List.countP_congr
      intro d _
      simp [List.exists_mem_cons_iff]
    rw [hsplit, countP_or_key _ _ D hD, ih D hD hkeys', List.countP_cons]
    have hq : decide (∃ x ∈ P', key x = key p) = false := by
      simp only [decide_eq_false_iff_not]
      rintro ⟨x, hx, hkey⟩
      exact hkp (hkey ▸ List.mem_map_of_mem key hx)
    rw [hq]
    by_cases hmem : key p ∈ D
    · simp [hmem]
    · simp [hmem]

namespace App

theorem find?_isSome_eq (players : List Player) (i : Int) :
    (players.find? (fun p => decide (p.id = i))).isSome
      = decide (∃ p ∈ players, p.id = i) := by
  induction players with
  | nil => simp
  | cons p ps ih =>
    by_cases hp : p.id = i
    · rw [List.find?_cons_of_pos _ (by simp [hp])]
      simp [hp]
    · rw [List.find?_cons_of_neg _ (by simp [hp])]
      rw [ih]
      simp [List.exists_mem_cons_iff, hp]

end App

/-- Claim C2: `App.tsx` `useGameSummaries` produces one summary per catalog
game, in catalog order — games referenced by no fact report `count = 0` and an
empty attendee list — and each game's count equals the number of distinct
roster players having a fact for that game (the roster carries unique ids, per
the data model). -/
theorem claim_C2_summaries_cover_catalog (players : List App.Player)
    (games : List App.Game) (entries : List AvailabilityEntry)
    (hids : (players.map App.Player.id).Nodup) :
    (App.useGameSummaries players games entries).map App.Summary.game = games
    ∧ ∀ s ∈ App.useGameSummaries players games entries,
        (s.count = (players.filter (fun p =>
            decide (∃ e ∈ entries,
              e.gameId = s.game.id ∧ e.playerId = p.id))).length
        ∧ ((∀ e ∈ entries, ¬ e.gameId = s.game.id) →
            s.count = 0 ∧ s.availablePlayers = [])) := by
  constructor
  · simp [App.useGameSummaries, List.map_map, Function.comp_def]
  · intro s hs
    rw [App.useGameSummaries] at hs
    obtain ⟨g, hg, rfl⟩ := List.mem_map.mp hs
    constructor
    · show ((dedupFirst ((entries.filter (fun e => decide (e.gameId = g.id))).map
            (fun e => e.playerId))).filterMap
          (fun id => players.find? (fun p => decide (p.id = id)))).length
        = (players.filter (fun p =>
            decide (∃ e ∈ entries, e.gameId = g.id ∧ e.playerId = p.id))).length
      rw [length_filterMap_eq_length_filter]
      have h1 : ∀ i ∈ dedupFirst ((entries.filter
            (fun e => decide (e.gameId = g.id))).map (fun e => e.playerId)),
          ((players.find? (fun p => decide (p.id = i))).isSome
            = decide (∃ p ∈ players, p.id = i)) :=
        fun i _ => App.find?_isSome_eq players i
      rw [List.filter_congr h1]
      rw [← List.countP_eq_length_filter, ← List.countP_eq_length_filter]
      rw [countP_exists_key App.Player.id players _ (nodup_dedupFirst _) hids]
      apply List.countP_congr
      intro p _
      simp only [decide_eq_true_eq]
      rw [mem_dedupFirst]
      simp only [List.mem_map, List.mem_filter, decide_eq_true_eq]
      constructor
      · rintro ⟨e, ⟨he, hgid⟩, hpid⟩
        exact ⟨e, he, hgid, hpid⟩
      · rintro ⟨e, he, hgid, hpid⟩
        exact ⟨e, ⟨he, hgid⟩, hpid⟩
    · intro hz
      have hfil : entries.filter (fun e => decide (e.gameId = g.id)) = [] := by
        apply List.filter_eq_nil_iff.mpr
        intro e he
        simpa using hz e he
      constructor
      · show ((dedupFirst ((entries.filter (fun e => decide (e.gameId = g.id))).map
              (fun e => e.playerId))).filterMap
            (fun id => players.find? (fun p => decide (p.id = id)))).length = 0
        rw [hfil]
        rfl
      · show (dedupFirst ((entries.filter (fun e => decide (e.gameId = g.id))).map
              (fun e => e.playerId))).filterMap
            (fun id => players.find? (fun p => decide (p.id = id))) = []
        rw [hfil]
        rfl

/-- Witness for C2 at a concrete input: one player, one game, one fact. -/
theorem claim_C2_summaries_cover_catalog_witness :
    (App.useGameSummaries [⟨1, "a", "", ""⟩] [⟨1, "x", "", "", "", .home, ""⟩]
        [⟨1, 1⟩]).map App.Summary.game
      = [⟨1, "x", "", "", "", .home, ""⟩] :=
  (claim_C2_summaries_cover_catalog [⟨1, "a", "", ""⟩]
    [⟨1, "x", "", "", "", .home, ""⟩] [⟨1, 1⟩] (by decide)).1

theorem filterMap_filter_isSome {α β : Type} (f : α → Option β) (l : List α) :
    (l.filter (fun a => (f a).isSome)).filterMap f = l.filterMap f := by
  induction l with
  | nil => rfl
  | cons x xs ih =>
    cases hfx : f x with
    | none => simp [List.filter_cons, List.filterMap_cons, hfx, ih]
    | some b => simp [List.filter_cons, List.filterMap_cons, hfx, ih]

namespace App

/-- A fact resolves against the provided roster and event catalog: its
`playerId` occurs among the roster ids and its `gameId` among the catalog
ids. A fact failing this is a "ghost" fact. -/
def resolves (players : List Player) (games : List Game)
    (e : AvailabilityEntry) : Bool :=
  decide ((∃ p ∈ players, p.id = e.playerId) ∧ ∃ g ∈ games, g.id = e.gameId)

end App

/-- Claim C6: a fact whose `playerId` does not occur in the roster or whose
`gameId` does not occur in the catalog contributes nothing in `App.tsx`:
dropping all such ghost facts leaves every summary (game, attendee list and
count) unchanged, leaves the best-game recommendation unchanged, and every
listed attendee is a roster member. -/
theorem claim_C6_ghost_facts_ignored (players : List App.Player)
    (games : List App.Game) (entries : List AvailabilityEntry) :
    App.useGameSummaries players games
        (entries.filter (App.resolves players games))
      = App.useGameSummaries players games entries
    ∧ App.bestGame (App.useGameSummaries players games
        (entries.filter (App.resolves players games)))
      = App.bestGame (App.useGameSummaries players games entries)
    ∧ ∀ s ∈ App.useGameSummaries players games entries,
        ∀ q ∈ s.availablePlayers, q ∈ players := by
  have hsum : App.useGameSummaries players games
      (entries.filter (App.resolves players games))
      = App.useGameSummaries players games entries := by
    rw [App.useGameSummaries, App.useGameSummaries]
    apply List.map_congr_left
    intro g hg
    have h1 : (entries.filter (App.resolves players games)).filter
          (fun e => decide (e.gameId = g.id))
        = (entries.filter (fun e => decide (e.gameId = g.id))).filter
          (App.resolves players games) :=
      List.filter_comm _ _ _
    have h2 : (entries.filter (fun e => decide (e.gameId = g.id))).filter
          (App.resolves players games)
        = (entries.filter (fun e => decide (e.gameId = g.id))).filter
          (fun e => decide (∃ p ∈ players, p.id = e.playerId)) := by
      apply List.filter_congr
      intro e he
      have hgid : e.gameId = g.id := by
        have := (List.mem_filter.mp he).2
        simpa using this
      have hex : ∃ g' ∈ games, g'.id = e.gameId := ⟨g, hg, hgid.symm⟩
      simp [App.resolves, hex]
    have h3 : ((entries.filter (fun e => decide (e.gameId = g.id))).filter
          (fun e => decide (∃ p ∈ players, p.id = e.playerId))).map
          (fun e => e.playerId)
        = ((entries.filter (fun e => decide (e.gameId = g.id))).map
          (fun e => e.playerId)).filter
          (fun i => decide (∃ p ∈ players, p.id = i)) := by
      rw [List.filter_map]
      rfl
    have h5 : ∀ D : List Int,
        (D.filter (fun i => decide (∃ p ∈ players, p.id = i))).filterMap
          (fun i => players.find? (fun p => decide (p.id = i)))
        = D.filterMap (fun i => players.find? (fun p => decide (p.id = i))) := by
      intro D
      have hcongr : D.filter (fun i => decide (∃ p ∈ players, p.id = i))
          = D.filter (fun i =>
              (players.find? (fun p => decide (p.id = i))).isSome) :=
        List.filter_congr (fun i _ => (App.find?_isSome_eq players i).symm)
      rw [hcongr, filterMap_filter_isSome]
    have hlist : (dedupFirst (((entries.filter
            (App.resolves players games)).filter
            (fun e => decide (e.gameId = g.id))).map
            (fun e => e.playerId))).filterMap
          (fun i => players.find? (fun p => decide (p.id = i)))
        = (dedupFirst ((entries.filter
            (fun e => decide (e.gameId = g.id))).map
            (fun e => e.playerId))).filterMap
          (fun i => players.find? (fun p => decide (p.id = i))) := by
      rw [h1, h2, h3, dedupFirst_filter]
      exact h5 _
    show (⟨g, (dedupFirst (((entries.filter
            (App.resolves players games)).filter
            (fun e => decide (e.gameId = g.id))).map
            (fun e => e.playerId))).filterMap
          (fun i => players.find? (fun p => decide (p.id = i))),
        ((dedupFirst (((entries.filter
            (App.resolves players games)).filter
            (fun e => decide (e.gameId = g.id))).map
            (fun e => e.playerId))).filterMap
          (fun i => players.find? (fun p => decide (p.id = i)))).length⟩
        : App.Summary)
      = ⟨g, (dedupFirst ((entries.filter
            (fun e => decide (e.gameId = g.id))).map
            (fun e => e.playerId))).filterMap
          (fun i => players.find? (fun p => decide (p.id = i))),
        ((dedupFirst ((entries.filter
            (fun e => decide (e.gameId = g.id))).map
            (fun e => e.playerId))).filterMap
          (fun i => players.find? (fun p => decide (p.id = i)))).length⟩
    rw [hlist]
  refine ⟨hsum, by rw [hsum], ?_⟩
  intro s hs q hq
  rw [App.useGameSummaries] at hs
  obtain ⟨g, hg, rfl⟩ := List.mem_map.mp hs
  obtain ⟨i, -, hfind⟩ := List.mem_filterMap.mp hq
  exact List.mem_of_find?_eq_some hfind

/-- Witness for C6 at a concrete input: a ghost fact (playerId 99, gameId 7)
does not change the summaries. -/
theorem claim_C6_ghost_facts_ignored_witness :
    App.useGameSummaries [⟨1, "a", "", ""⟩] [⟨1, "x", "", "", "", .home, ""⟩]
        ([(⟨1, 1⟩ : AvailabilityEntry), ⟨99, 7⟩].filter
          (App.resolves [⟨1, "a", "", ""⟩] [⟨1, "x", "", "", "", .home, ""⟩]))
      = App.useGameSummaries [⟨1, "a", "", ""⟩] [⟨1, "x", "", "", "", .home, ""⟩]
          [⟨1, 1⟩, ⟨99, 7⟩] :=
  (claim_C6_ghost_facts_ignored [⟨1, "a", "", ""⟩]
    [⟨1, "x", "", "", "", .home, ""⟩] [⟨1, 1⟩, ⟨99, 7⟩]).1

namespace App

theorem insertByCountDesc_ne_nil (s : Summary) (l : List Summary) :
    insertByCountDesc s l ≠ [] := by
  cases l with
  | nil => simp [insertByCountDesc]
  | cons t ts =>
    rw [insertByCountDesc]
    by_cases h : s.count < t.count
    · simp [h]
    · simp [h]

theorem sortByCountDesc_eq_nil_iff (l : List Summary) :
    sortByCountDesc l = [] ↔ l = [] := by
  cases l with
  | nil => simp [sortByCountDesc]
  | cons s ss =>
    rw [sortByCountDesc]
    simp [insertByCountDesc_ne_nil]

theorem head_sortByCountDesc_spec (l : List Summary) (s : Summary)
    (rest : List Summary) (h : sortByCountDesc l = s :: rest) :
    ∃ l₁ l₂ : List Summary, l = l₁ ++ s :: l₂
      ∧ (∀ t ∈ l₁, t.count < s.count) ∧ (∀ t ∈ l, t.count ≤ s.count) := by
  induction l generalizing s rest with
  | nil => simp [sortByCountDesc] at h
  | cons x xs ih =>
    rw [sortByCountDesc] at h
    cases hsort : sortByCountDesc xs with
    | nil =>
      have hxs : xs = [] := (sortByCountDesc_eq_nil_iff xs).mp hsort
      subst hxs
      rw [hsort, insertByCountDesc] at h
      cases h
      exact ⟨[], [], rfl, by simp, by simp⟩
    | cons hh hrest =>
      rw [hsort, insertByCountDesc] at h
      by_cases hcmp : x.count < hh.count
      · rw [if_pos hcmp] at h
        cases h
        obtain ⟨m₁, m₂, hxs, hpre, hmax⟩ := ih s hrest hsort
        refine ⟨x :: m₁, m₂, by rw [hxs]; rfl, ?_, ?_⟩
        · intro t ht
          rcases List.mem_cons.mp ht with rfl | ht
          · exact hcmp
          · exact hpre t ht
        · intro t ht
          rcases List.mem_cons.mp ht with rfl | ht
          · exact le_of_lt hcmp
          · exact hmax t ht
      · rw [if_neg hcmp] at h
        cases h
        push_neg at hcmp
        obtain ⟨m₁, m₂, hxs, hpre, hmax⟩ := ih hh hrest hsort
        refine ⟨[], xs, rfl, by simp, ?_⟩
        intro t ht
        rcases List.mem_cons.mp ht with rfl | ht
        · exact le_refl _
        · exact le_trans (hmax t ht) hcmp

theorem bestGame_some_spec (l : List Summary) (s : Summary)
    (h : bestGame l = some s) :
    0 < s.count ∧ ∃ l₁ l₂ : List Summary, l = l₁ ++ s :: l₂
      ∧ (∀ t ∈ l₁, t.count < s.count) ∧ (∀ t ∈ l, t.count ≤ s.count) := by
  rw [bestGame] at h
  cases hsort : sortByCountDesc l with
  | nil => rw [hsort] at h; simp at h
  | cons hd tl =>
    rw [hsort] at h
    have h' : (if 0 < hd.count then some hd else none) = some s := h
    by_cases hc : 0 < hd.count
    · rw [if_pos hc] at h'
      cases h'
      exact ⟨hc, head_sortByCountDesc_spec l _ tl hsort⟩
    · rw [if_neg hc] at h'
      simp at h'

theorem bestGame_none_iff (l : List Summary) :
    bestGame l = none ↔ l = [] ∨ ∀ t ∈ l, t.count = 0 := by
  rw [bestGame]
  cases hsort : sortByCountDesc l with
  | nil =>
    have hl : l = [] := (sortByCountDesc_eq_nil_iff l).mp hsort
    subst hl
    simp
  | cons hd tl =>
    have hl : l ≠ [] := by
      intro hnil
      subst hnil
      simp [sortByCountDesc] at hsort
    obtain ⟨l₁, l₂, hsplit, hpre, hmax⟩ :=
      head_sortByCountDesc_spec l hd tl hsort
    constructor
    · intro h
      have h' : (if 0 < hd.count then some hd else none) = (none : Option Summary) := h
      by_cases hc : 0 < hd.count
      · rw [if_pos hc] at h'
        exact absurd h' (by simp)
      · right
        push_neg at hc
        intro t ht
        have := hmax t ht
        omega
    · intro h
      rcases h with rfl | hall
      · exact absurd rfl hl
      · have hhd : hd.count = 0 := by
          apply hall
          rw [hsplit]
          exact List.mem_append.mpr (Or.inr (List.mem_cons_self _ _))
        show (if 0 < hd.count then some hd else none) = (none : Option Summary)
        rw [if_neg (by omega)]

end App

namespace Courts

/-- Time slot of `part_003` (`type TimeOfDay`). -/
inductive TimeOfDay where
  | morning
  | afternoon
  | evening
  deriving DecidableEq

/-- Roster entry of `part_003` (`interface Player`). -/
structure Player where
  id : Int
  name : String
  ranking : Int
  deriving DecidableEq

/-- Court of `part_003` (`interface Court`); `distanceKm` is an exact decimal
literal in the source, modelled as a rational so the `<=` comparison is
exact. -/
structure Court where
  id : Int
  name : String
  address : String
  distanceKm : ℚ
  deriving DecidableEq

/-- Availability fact of `part_003` (`interface AvailabilityEntry`): a player
available at a court on a day in a time slot. -/
structure Entry where
  playerId : Int
  courtId : Int
  day : String
  slot : TimeOfDay
  deriving DecidableEq

/-- The day labels iterated by `useSuggestedSession` (`const DAYS`). -/
def DAYS : List String := ["Mon", "Tue", "Wed", "Thu", "Fri", "Sat", "Sun"]

/-- The slot list iterated by `useSuggestedSession`. -/
def SLOTS : List TimeOfDay := [.morning, .afternoon, .evening]

/-- The running best of the triple loop in `useSuggestedSession`. -/
structure Best where
  court : Court
  day : String
  slot : TimeOfDay
  playerIds : List Int
  deriving DecidableEq

/-- The entries of one (court, day, slot) cell (`availableHere`). -/
def slotEntries (entries : List Entry) (court : Court) (day : String)
    (slot : TimeOfDay) : List Entry :=
  entries.filter fun e =>
    decide (e.courtId = court.id ∧ e.day = day ∧ e.slot = slot)

/-- One iteration of the triple loop of `useSuggestedSession`: skip the cell
when nobody is available (`continue`), otherwise replace the best exactly when
there is no best yet or the cell's distinct-player count is strictly larger
(`!best || uniquePlayerIds.length > best.playerIds.length`). The source's
local `availableHere` / `uniquePlayerIds` bindings are inlined. -/
def considerSlot (entries : List Entry) (acc : Option Best) (court : Court)
    (day : String) (slot : TimeOfDay) : Option Best :=
  if (slotEntries entries court day slot).isEmpty then acc
  else
    match acc with
    | none => some ⟨court, day, slot,
        dedupFirst ((slotEntries entries court day slot).map fun e => e.playerId)⟩
    | some b =>
      if b.playerIds.length
          < (dedupFirst ((slotEntries entries court day slot).map
              fun e => e.playerId)).length then
        some ⟨court, day, slot,
          dedupFirst ((slotEntries entries court day slot).map fun e => e.playerId)⟩
      else acc

/-- The iteration order of the three nested `for` loops: eligible courts in
catalog order, then days, then slots. -/
def slotTriples (eligibleCourts : List Court) :
    List (Court × String × TimeOfDay) :=
  eligibleCourts.flatMap fun c => DAYS.flatMap fun d => SLOTS.map fun s => (c, d, s)

/-- The result record of `useSuggestedSession`. -/
structure Suggestion where
  court : Court
  day : String
  slot : TimeOfDay
  slotLabel : String
  playerNames : List String
  deriving DecidableEq

/-- The display label of a slot. -/
def slotLabelOf : TimeOfDay → String
  | .morning => "7–11am"
  | .afternoon => "12–4pm"
  | .evening => "5–9pm"

/-- `part_003` `useSuggestedSession`: `null` when the roster or the court list
is empty or no court passes the distance filter; otherwise run the triple loop
and, when a best cell exists, resolve its distinct player ids against the
roster for display (`players.find(...)?.name`, dropping unresolved ids from
the name list — the loop itself counts unresolved ids). The source's local
`eligibleCourts` binding is inlined. -/
def useSuggestedSession (players : List Player) (courts : List Court)
    (entries : List Entry) (maxDistanceKm : ℚ) : Option Suggestion :=
  if players.isEmpty ∨ courts.isEmpty then none
  else if (courts.filter fun c => decide (c.distanceKm ≤ maxDistanceKm)).isEmpty
    then none
  else
    match (slotTriples (courts.filter fun c =>
        decide (c.distanceKm ≤ maxDistanceKm))).foldl
        (fun acc t => considerSlot entries acc t.1 t.2.1 t.2.2) none with
    | none => none
    | some b =>
      some ⟨b.court, b.day, b.slot, slotLabelOf b.slot,
        b.playerIds.filterMap fun i =>
          (players.find? fun p => decide (p.id = i)).map fun p => p.name⟩

/-- The number of distinct player ids marked available in a cell — the
quantity the loop maximises (unresolved ids included). -/
def slotKey (entries : List Entry) (t : Court × String × TimeOfDay) : Nat :=
  (dedupFirst ((slotEntries entries t.1 t.2.1 t.2.2).map fun e => e.playerId)).length

/-- The `Best` record the loop builds for a cell. -/
def mkBest (entries : List Entry) (t : Court × String × TimeOfDay) : Best :=
  ⟨t.1, t.2.1, t.2.2,
    dedupFirst ((slotEntries entries t.1 t.2.1 t.2.2).map fun e => e.playerId)⟩

/-- The distinct-attendee count of a cell in the sense of the specification:
distinct player ids with a fact for the cell that resolve in the provided
roster. -/
def attendance (players : List Player) (entries : List Entry)
    (t : Court × String × TimeOfDay) : Nat :=
  ((dedupFirst ((slotEntries entries t.1 t.2.1 t.2.2).map
      fun e => e.playerId)).filter fun i => decide (∃ p ∈ players, p.id = i)).length

end Courts

namespace Courts

theorem considerSlot_of_empty (entries : List Entry) (acc : Option Best)
    (t : Court × String × TimeOfDay)
    (h : slotEntries entries t.1 t.2.1 t.2.2 = []) :
    considerSlot entries acc t.1 t.2.1 t.2.2 = acc := by
  unfold considerSlot
  rw [if_pos (List.isEmpty_iff.mpr h)]

theorem considerSlot_none_of_ne (entries : List Entry)
    (t : Court × String × TimeOfDay)
    (h : slotEntries entries t.1 t.2.1 t.2.2 ≠ []) :
    considerSlot entries none t.1 t.2.1 t.2.2 = some (mkBest entries t) := by
  unfold considerSlot
  rw [if_neg (fun hh => h (List.isEmpty_iff.mp hh))]
  rfl

theorem considerSlot_some_of_ne (entries : List Entry) (b : Best)
    (t : Court × String × TimeOfDay)
    (h : slotEntries entries t.1 t.2.1 t.2.2 ≠ []) :
    considerSlot entries (some b) t.1 t.2.1 t.2.2
      = if b.playerIds.length < slotKey entries t then some (mkBest entries t)
        else some b := by
  unfold considerSlot
  rw [if_neg (fun hh => h (List.isEmpty_iff.mp hh))]
  rfl

theorem mkBest_playerIds_length (entries : List Entry)
    (t : Court × String × TimeOfDay) :
    (mkBest entries t).playerIds.length = slotKey entries t := rfl

theorem slotKey_eq_zero_iff (entries : List Entry)
    (t : Court × String × TimeOfDay) :
    slotKey entries t = 0 ↔ slotEntries entries t.1 t.2.1 t.2.2 = [] := by
  constructor
  · intro h
    cases hE : slotEntries entries t.1 t.2.1 t.2.2 with
    | nil => rfl
    | cons e es =>
      exfalso
      have hpos : 0 < slotKey entries t := by
        apply dedupFirst_length_pos e.playerId
        rw [hE]
        exact List.mem_map_of_mem _ (List.mem_cons_self _ _)
      omega
  · intro h
    rw [slotKey, h]
    rfl

theorem slotKey_pos_of_ne (entries : List Entry)
    (t : Court × String × TimeOfDay)
    (h : slotEntries entries t.1 t.2.1 t.2.2 ≠ []) :
    0 < slotKey entries t := by
  rcases Nat.eq_zero_or_pos (slotKey entries t) with hz | hp
  · exact absurd ((slotKey_eq_zero_iff entries t).mp hz) h
  · exact hp

theorem bestFold_of_all_empty (entries : List Entry) :
    ∀ (ts : List (Court × String × TimeOfDay)) (acc : Option Best),
    (∀ u ∈ ts, slotEntries entries u.1 u.2.1 u.2.2 = []) →
    ts.foldl (fun acc t => considerSlot entries acc t.1 t.2.1 t.2.2) acc = acc := by
  intro ts
  induction ts with
  | nil => intro acc _; rfl
  | cons t ts ih =>
    intro acc hall
    rw [List.foldl_cons,
      considerSlot_of_empty entries acc t (hall t (List.mem_cons_self _ _))]
    exact ih acc fun u hu => hall u (List.mem_cons_of_mem _ hu)

theorem bestFold_spec (entries : List Entry)
    (ts : List (Court × String × TimeOfDay)) :
    (ts.foldl (fun acc t => considerSlot entries acc t.1 t.2.1 t.2.2) none = none →
      ∀ u ∈ ts, slotEntries entries u.1 u.2.1 u.2.2 = [])
    ∧ ∀ b : Best,
      ts.foldl (fun acc t => considerSlot entries acc t.1 t.2.1 t.2.2) none = some b →
      ∃ (t : Court × String × TimeOfDay)
        (l₁ l₂ : List (Court × String × TimeOfDay)),
        ts = l₁ ++ t :: l₂ ∧ b = mkBest entries t
        ∧ slotEntries entries t.1 t.2.1 t.2.2 ≠ []
        ∧ (∀ u ∈ l₁, slotKey entries u < slotKey entries t)
        ∧ (∀ u ∈ ts, slotKey entries u ≤ slotKey entries t) := by
  induction ts using List.reverseRecOn with
  | nil => exact ⟨fun _ u hu => absurd hu (by simp), fun b h => by simp at h⟩
  | append_singleton ts u ih =>
    rw [List.foldl_append]
    have hfold : ∀ A : Option Best,
        List.foldl (fun acc t => considerSlot entries acc t.1 t.2.1 t.2.2) A [u]
          = considerSlot entries A u.1 u.2.1 u.2.2 := fun A => rfl
    rw [hfold]
    cases hA : List.foldl (fun acc t => considerSlot entries acc t.1 t.2.1 t.2.2)
        none ts with
    | none =>
      by_cases hu : slotEntries entries u.1 u.2.1 u.2.2 = []
      · rw [considerSlot_of_empty entries none u hu]
        constructor
        · intro _ v hv
          rcases List.mem_append.mp hv with hv | hv
          · exact ih.1 hA v hv
          · rw [List.mem_singleton.mp hv]
            exact hu
        · intro b h
          simp at h
      · rw [considerSlot_none_of_ne entries u hu]
        constructor
        · intro h
          simp at h
        · intro b h
          have hb : b = mkBest entries u := by
            cases h
            rfl
          refine ⟨u, ts, [], rfl, hb, hu, ?_, ?_⟩
          · intro v hv
            have hv0 : slotKey entries v = 0 :=
              (slotKey_eq_zero_iff entries v).mpr (ih.1 hA v hv)
            have := slotKey_pos_of_ne entries u hu
            omega
          · intro v hv
            rcases List.mem_append.mp hv with hv | hv
            · have hv0 : slotKey entries v = 0 :=
                (slotKey_eq_zero_iff entries v).mpr (ih.1 hA v hv)
              omega
            · rw [List.mem_singleton.mp hv]
    | some b₀ =>
      obtain ⟨t₀, l₁, l₂, hsplit, hb₀, hne₀, hpre₀, hmax₀⟩ := ih.2 b₀ hA
      by_cases hu : slotEntries entries u.1 u.2.1 u.2.2 = []
      · rw [considerSlot_of_empty entries (some b₀) u hu]
        constructor
        · intro h
          simp at h
        · intro b h
          have hb : b = b₀ := by
            cases h
            rfl
          subst hb
          refine ⟨t₀, l₁, l₂ ++ [u], by rw [hsplit]; simp, hb₀, hne₀, hpre₀, ?_⟩
          intro v hv
          rcases List.mem_append.mp hv with hv | hv
          · exact hmax₀ v hv
          · rw [List.mem_singleton.mp hv]
            have hv0 : slotKey entries u = 0 :=
              (slotKey_eq_zero_iff entries u).mpr hu
            omega
      · rw [considerSlot_some_of_ne entries b₀ u hu]
        have hlen : b₀.playerIds.length = slotKey entries t₀ := by
          rw [hb₀, mkBest_playerIds_length]
        by_cases hcmp : b₀.playerIds.length < slotKey entries u
        · rw [if_pos hcmp]
          constructor
          · intro h
            simp at h
          · intro b h
            have hb : b = mkBest entries u := by
              cases h
              rfl
            rw [hlen] at hcmp
            refine ⟨u, ts, [], rfl, hb, hu, ?_, ?_⟩
            · intro v hv
              have := hmax₀ v hv
              omega
            · intro v hv
              rcases List.mem_append.mp hv with hv | hv
              · have := hmax₀ v hv
                omega
              · rw [List.mem_singleton.mp hv]
        · rw [if_neg hcmp]
          constructor
          · intro h
            simp at h
          · intro b h
            have hb : b = b₀ := by
              cases h
              rfl
            subst hb
            rw [hlen] at hcmp
            push_neg at hcmp
            refine ⟨t₀, l₁, l₂ ++ [u], by rw [hsplit]; simp, hb₀, hne₀, hpre₀, ?_⟩
            intro v hv
            rcases List.mem_append.mp hv with hv | hv
            · exact hmax₀ v hv
            · rw [List.mem_singleton.mp hv]
              exact hcmp

end Courts

namespace Courts

theorem useSuggestedSession_none_iff (players : List Player)
    (courts : List Court) (entries : List Entry) (maxD : ℚ) :
    useSuggestedSession players courts entries maxD = none
      ↔ players = [] ∨ courts = []
        ∨ (courts.filter fun c => decide (c.distanceKm ≤ maxD)) = []
        ∨ ∀ t ∈ slotTriples (courts.filter fun c => decide (c.distanceKm ≤ maxD)),
            slotEntries entries t.1 t.2.1 t.2.2 = [] := by
  unfold useSuggestedSession
  by_cases h1 : players.isEmpty ∨ courts.isEmpty
  · rw [if_pos h1]
    simp only [List.isEmpty_iff] at h1
    constructor
    · intro _
      rcases h1 with h | h
      · exact Or.inl h
      · exact Or.inr (Or.inl h)
    · intro _
      rfl
  · rw [if_neg h1]
    rw [not_or] at h1
    have hp : players ≠ [] := fun h => h1.1 (List.isEmpty_iff.mpr h)
    have hc : courts ≠ [] := fun h => h1.2 (List.isEmpty_iff.mpr h)
    by_cases h2 : (courts.filter fun c => decide (c.distanceKm ≤ maxD)).isEmpty
    · rw [if_pos h2]
      constructor
      · intro _
        exact Or.inr (Or.inr (Or.inl (List.isEmpty_iff.mp h2)))
      · intro _
        rfl
    · rw [if_neg h2]
      cases hF : (slotTriples (courts.filter fun c =>
          decide (c.distanceKm ≤ maxD))).foldl
          (fun acc t => considerSlot entries acc t.1 t.2.1 t.2.2) none with
      | none =>
        constructor
        · intro _
          exact Or.inr (Or.inr (Or.inr ((bestFold_spec entries _).1 hF)))
        · intro _
          rfl
      | some b =>
        constructor
        · intro h
          exact Option.noConfusion h
        · rintro (h | h | h | h)
          · exact absurd h hp
          · exact absurd h hc
          · exact absurd (List.isEmpty_iff.mpr h) h2
          · have := bestFold_of_all_empty entries _ none h
            rw [hF] at this
            exact Option.noConfusion this

theorem useSuggestedSession_some_spec (players : List Player)
    (courts : List Court) (entries : List Entry) (maxD : ℚ)
    (sug : Suggestion)
    (h : useSuggestedSession players courts entries maxD = some sug) :
    ∃ (t : Court × String × TimeOfDay)
      (l₁ l₂ : List (Court × String × TimeOfDay)),
      slotTriples (courts.filter fun c => decide (c.distanceKm ≤ maxD))
        = l₁ ++ t :: l₂
      ∧ sug = ⟨t.1, t.2.1, t.2.2, slotLabelOf t.2.2,
          (mkBest entries t).playerIds.filterMap fun i =>
            (players.find? fun p => decide (p.id = i)).map fun p => p.name⟩
      ∧ slotEntries entries t.1 t.2.1 t.2.2 ≠ []
      ∧ (∀ u ∈ l₁, slotKey entries u < slotKey entries t)
      ∧ (∀ u ∈ slotTriples (courts.filter fun c => decide (c.distanceKm ≤ maxD)),
          slotKey entries u ≤ slotKey entries t) := by
  unfold useSuggestedSession at h
  by_cases h1 : players.isEmpty ∨ courts.isEmpty
  · rw [if_pos h1] at h
    exact Option.noConfusion h
  · rw [if_neg h1] at h
    by_cases h2 : (courts.filter fun c => decide (c.distanceKm ≤ maxD)).isEmpty
    · rw [if_pos h2] at h
      exact Option.noConfusion h
    · rw [if_neg h2] at h
      cases hF : (slotTriples (courts.filter fun c =>
          decide (c.distanceKm ≤ maxD))).foldl
          (fun acc t => considerSlot entries acc t.1 t.2.1 t.2.2) none with
      | none =>
        rw [hF] at h
        exact Option.noConfusion h
      | some b =>
        rw [hF] at h
        obtain ⟨t, l₁, l₂, hsplit, hb, hne, hpre, hmax⟩ :=
          (bestFold_spec entries _).2 b hF
        refine ⟨t, l₁, l₂, hsplit, ?_, hne, hpre, hmax⟩
        have h' : some (⟨b.court, b.day, b.slot, slotLabelOf b.slot,
            b.playerIds.filterMap fun i =>
              (players.find? fun p => decide (p.id = i)).map fun p => p.name⟩
            : Suggestion) = some sug := h
        cases h'
        rw [hb]
        rfl

theorem attendance_eq_slotKey (players : List Player) (entries : List Entry)
    (hres : ∀ e ∈ entries, ∃ p ∈ players, p.id = e.playerId)
    (t : Court × String × TimeOfDay) :
    attendance players entries t = slotKey entries t := by
  rw [attendance, slotKey]
  congr 1
  apply List.filter_eq_self.mpr
  intro i hi
  rw [mem_dedupFirst] at hi
  obtain ⟨e, he, rfl⟩ := List.mem_map.mp hi
  have hee : e ∈ entries := (List.mem_filter.mp he).1
  simpa using hres e hee

end Courts

/-- Claim C1 (amended): whenever the main app's `bestGame` returns a summary,
that summary has a positive, maximal distinct resolved-attendee count among
the catalog's summaries and is the first summary in catalog order among those
attaining the maximum (any earlier summary has a strictly smaller count —
`Array.prototype.sort` is stable, so equal counts keep catalog order); and
whenever `part_003`'s `useSuggestedSession` returns a suggestion, the chosen
cell attains the maximal count of distinct *unresolved* player ids over the
court/day/slot iteration order, first-encountered-wins on ties. Both functions
are pure, so repeated calls on the same inputs return the same event; but the
court variant does not resolve ids against the roster before comparing counts,
so its maximum agrees with the distinct-attendee maximum only when every fact
references a roster player. -/
theorem claim_C1_best_slot_first_max (players : List App.Player)
    (games : List App.Game) (entries : List AvailabilityEntry)
    (s : App.Summary) (cplayers : List Courts.Player)
    (ccourts : List Courts.Court) (centries : List Courts.Entry) (maxD : ℚ)
    (sug : Courts.Suggestion)
    (hApp : App.bestGame (App.useGameSummaries players games entries) = some s)
    (hCourts : Courts.useSuggestedSession cplayers ccourts centries maxD
      = some sug) :
    (0 < s.count
      ∧ (∀ t ∈ App.useGameSummaries players games entries, t.count ≤ s.count)
      ∧ ∃ l₁ l₂ : List App.Summary,
          App.useGameSummaries players games entries = l₁ ++ s :: l₂
          ∧ ∀ t ∈ l₁, t.count < s.count)
    ∧ ∃ (t : Courts.Court × String × Courts.TimeOfDay)
        (l₁ l₂ : List (Courts.Court × String × Courts.TimeOfDay)),
        Courts.slotTriples (ccourts.filter fun c =>
            decide (c.distanceKm ≤ maxD)) = l₁ ++ t :: l₂
        ∧ sug = ⟨t.1, t.2.1, t.2.2, Courts.slotLabelOf t.2.2,
            (Courts.mkBest centries t).playerIds.filterMap fun i =>
              (cplayers.find? fun p => decide (p.id = i)).map fun p => p.name⟩
        ∧ Courts.slotEntries centries t.1 t.2.1 t.2.2 ≠ []
        ∧ (∀ u ∈ l₁, Courts.slotKey centries u < Courts.slotKey centries t)
        ∧ (∀ u ∈ Courts.slotTriples (ccourts.filter fun c =>
            decide (c.distanceKm ≤ maxD)),
            Courts.slotKey centries u ≤ Courts.slotKey centries t) := by
  constructor
  · obtain ⟨hpos, l₁, l₂, hsplit, hpre, hmax⟩ :=
      App.bestGame_some_spec _ s hApp
    exact ⟨hpos, hmax, l₁, l₂, hsplit, hpre⟩
  · exact Courts.useSuggestedSession_some_spec cplayers ccourts centries maxD
      sug hCourts

/-- Witness for C1 at concrete inputs: with one player, one game and one
fact, the returned summary has positive count and splits the summary list
with strictly smaller counts before it. -/
theorem claim_C1_best_slot_first_max_witness :
    0 < (1 : Nat)
    ∧ ∃ l₁ l₂ : List App.Summary,
        App.useGameSummaries [⟨1, "a", "", ""⟩]
            [⟨1, "x", "", "", "", .home, ""⟩] [⟨1, 1⟩]
          = l₁ ++ (⟨⟨1, "x", "", "", "", .home, ""⟩, [⟨1, "a", "", ""⟩], 1⟩
              : App.Summary) :: l₂
        ∧ ∀ t ∈ l₁, t.count < 1 :=
  ⟨(claim_C1_best_slot_first_max [⟨1, "a", "", ""⟩]
      [⟨1, "x", "", "", "", .home, ""⟩] [⟨1, 1⟩]
      ⟨⟨1, "x", "", "", "", .home, ""⟩, [⟨1, "a", "", ""⟩], 1⟩
      [⟨1, "You", 1⟩] [⟨1, "A", "", 1⟩] [⟨1, 1, "Mon", .morning⟩] 5
      ⟨⟨1, "A", "", 1⟩, "Mon", .morning, "7–11am", ["You"]⟩
      (by decide) (by decide)).1.1,
    (claim_C1_best_slot_first_max [⟨1, "a", "", ""⟩]
      [⟨1, "x", "", "", "", .home, ""⟩] [⟨1, 1⟩]
      ⟨⟨1, "x", "", "", "", .home, ""⟩, [⟨1, "a", "", ""⟩], 1⟩
      [⟨1, "You", 1⟩] [⟨1, "A", "", 1⟩] [⟨1, 1, "Mon", .morning⟩] 5
      ⟨⟨1, "A", "", 1⟩, "Mon", .morning, "7–11am", ["You"]⟩
      (by decide) (by decide)).1.2.2⟩

/-- Counterexample for C1 as frozen: in `part_003`, two ghost facts (player
ids 99 and 98, absent from the roster) at the Monday-morning cell outweigh one
real fact at the Monday-afternoon cell, so `useSuggestedSession` returns the
morning cell, whose distinct resolved-attendee count is 0, even though the
eligible afternoon cell has distinct-attendee count 1. -/
theorem claim_C1_counterexample :
    Courts.useSuggestedSession [⟨1, "You", 1⟩] [⟨1, "A", "", 1⟩]
        [⟨99, 1, "Mon", .morning⟩, ⟨98, 1, "Mon", .morning⟩,
         ⟨1, 1, "Mon", .afternoon⟩] 5
      = some ⟨⟨1, "A", "", 1⟩, "Mon", .morning, "7–11am", []⟩
    ∧ Courts.attendance [⟨1, "You", 1⟩]
        [⟨99, 1, "Mon", .morning⟩, ⟨98, 1, "Mon", .morning⟩,
         ⟨1, 1, "Mon", .afternoon⟩] (⟨1, "A", "", 1⟩, "Mon", .morning) = 0
    ∧ Courts.attendance [⟨1, "You", 1⟩]
        [⟨99, 1, "Mon", .morning⟩, ⟨98, 1, "Mon", .morning⟩,
         ⟨1, 1, "Mon", .afternoon⟩] (⟨1, "A", "", 1⟩, "Mon", .afternoon) = 1
    ∧ (⟨1, "A", "", 1⟩, "Mon", Courts.TimeOfDay.afternoon)
        ∈ Courts.slotTriples ([⟨1, "A", "", 1⟩].filter
          fun c => decide (c.distanceKm ≤ (5 : ℚ))) := by
  refine ⟨by decide, by decide, by decide, by decide⟩

/-- Claim C4 (amended): the main app's `bestGame` returns no recommendation
exactly when the catalog is empty or every catalog game has count 0 (in
particular on an empty fact set); `part_003`'s `useSuggestedSession`, provided
every fact's `playerId` resolves in the roster, returns `null` exactly when no
court passes the distance filter or every eligible cell has zero attendance
(in particular on an empty fact set). Without that proviso the court variant
can return a recommendation built entirely from ghost facts. -/
theorem claim_C4_no_recommendation_iff (players : List App.Player)
    (games : List App.Game) (entries : List AvailabilityEntry)
    (cplayers : List Courts.Player) (ccourts : List Courts.Court)
    (centries : List Courts.Entry) (maxD : ℚ)
    (hres : ∀ e ∈ centries, ∃ p ∈ cplayers, p.id = e.playerId) :
    (App.bestGame (App.useGameSummaries players games entries) = none
      ↔ games = []
        ∨ ∀ s ∈ App.useGameSummaries players games entries, s.count = 0)
    ∧ App.bestGame (App.useGameSummaries players games []) = none
    ∧ (Courts.useSuggestedSession cplayers ccourts centries maxD = none
      ↔ (ccourts.filter fun c => decide (c.distanceKm ≤ maxD)) = []
        ∨ ∀ t ∈ Courts.slotTriples (ccourts.filter fun c =>
            decide (c.distanceKm ≤ maxD)),
            Courts.attendance cplayers centries t = 0)
    ∧ Courts.useSuggestedSession cplayers ccourts [] maxD = none := by
  refine ⟨?_, ?_, ?_, ?_⟩
  · rw [App.bestGame_none_iff]
    rw [show (App.useGameSummaries players games entries = []) ↔ games = [] from
      by rw [App.useGameSummaries]; exact List.map_eq_nil_iff]
  · rw [App.bestGame_none_iff]
    right
    intro s hs
    rw [App.useGameSummaries] at hs
    obtain ⟨g, hg, rfl⟩ := List.mem_map.mp hs
    rfl
  · rw [Courts.useSuggestedSession_none_iff]
    constructor
    · rintro (h | h | h | h)
      · subst h
        cases hcent : centries with
        | nil =>
          right
          intro t _
          rfl
        | cons e es =>
          exfalso
          have := hres e (by rw [hcent]; exact List.mem_cons_self _ _)
          simp at this
      · left
        rw [h]
        rfl
      · exact Or.inl h
      · right
        intro t ht
        rw [Courts.attendance_eq_slotKey cplayers centries hres t]
        exact (Courts.slotKey_eq_zero_iff centries t).mpr (h t ht)
    · rintro (h | h)
      · exact Or.inr (Or.inr (Or.inl h))
      · right; right; right
        intro t ht
        apply (Courts.slotKey_eq_zero_iff centries t).mp
        rw [← Courts.attendance_eq_slotKey cplayers centries hres t]
        exact h t ht
  · rw [Courts.useSuggestedSession_none_iff]
    right; right; right
    intro t _
    rfl

/-- Witness for C4 at concrete inputs: with an empty fact set the main app
recommends nothing. -/
theorem claim_C4_no_recommendation_iff_witness :
    App.bestGame (App.useGameSummaries [⟨1, "a", "", ""⟩]
      [⟨1, "x", "", "", "", .home, ""⟩] []) = none :=
  (claim_C4_no_recommendation_iff [⟨1, "a", "", ""⟩]
    [⟨1, "x", "", "", "", .home, ""⟩] [⟨1, 1⟩]
    [⟨1, "You", 1⟩] [⟨1, "A", "", 1⟩] [⟨1, 1, "Mon", .morning⟩] 5
    (by decide)).2.1

/-- Counterexample for C4 as frozen: in `part_003`, with roster `[player 1]`,
one eligible court and a single ghost fact (player id 99), every eligible cell
has zero attendance, yet `useSuggestedSession` returns a recommendation
(built from the ghost fact) instead of "no recommendation". -/
theorem claim_C4_counterexample :
    (Courts.useSuggestedSession [⟨1, "You", 1⟩] [⟨1, "A", "", 1⟩]
        [⟨99, 1, "Mon", .morning⟩] 5).isSome = true
    ∧ ∀ t ∈ Courts.slotTriples ([⟨1, "A", "", 1⟩].filter
        fun c => decide (c.distanceKm ≤ (5 : ℚ))),
        Courts.attendance [⟨1, "You", 1⟩] [⟨99, 1, "Mon", .morning⟩] t = 0 := by
  refine ⟨by decide, by decide⟩

namespace ServerSqlite

/-- `part_005` `normalizeEntries`: throw on non-arrays; validate each item
exactly like the client (`Number` coercion, `Number.isInteger`, positivity —
the checks coincide with `App.validEntry?`), dedup through the keyed `Map`,
and throw `Too many entries in one request` when the deduplicated size
exceeds 10,000. -/
def normalizeEntries (v : RawValue) : Except String (List AvailabilityEntry) :=
  match v with
  | .nonArray => .error "`entries` must be an array"
  | .arr items =>
    if 10000 < (dedupFirst (items.filterMap App.validEntry?)).length then
      .error "Too many entries in one request"
    else .ok (dedupFirst (items.filterMap App.validEntry?))

/-- The `ON CONFLICT (player_id, game_id) DO UPDATE SET updated_at = ...`
upsert of one row into the pending transaction state: an existing pair only
gets its timestamp refreshed, so the pair set gains the row exactly when it
is new. -/
def upsert (pending : List AvailabilityEntry)
    (e : AvailabilityEntry) : List AvailabilityEntry :=
  if e ∈ pending then pending else pending ++ [e]

/-- The INSERT loop inside the transaction of `handleWrite`; `failAt = some i`
makes the i-th insert throw (a storage fault), modelled as `none` (the
exception propagates). -/
def runInserts : List AvailabilityEntry → List AvailabilityEntry →
    Option Nat → Option (List AvailabilityEntry)
  | pending, [], _ => some pending
  | _, _ :: _, some 0 => none
  | pending, e :: es, failAt => runInserts (upsert pending e) es (failAt.map (· - 1))

/-- `part_005` `handleApi` PUT storage step (and identically `handleWrite` of
the SQLite vite plugin): `BEGIN`; `DELETE FROM availability` (pending state
starts empty); insert every entry; `COMMIT` — any throw triggers `ROLLBACK`,
leaving the committed store untouched. Readers only ever observe the
committed state, the first component of the result; the second component
reports success. -/
def handleWrite (store entries : List AvailabilityEntry)
    (failAt : Option Nat) : List AvailabilityEntry × Bool :=
  match runInserts [] entries failAt with
  | some rows => (rows, true)
  | none => (store, false)

theorem runInserts_eq_some (entries : List AvailabilityEntry) :
    ∀ (pending rows : List AvailabilityEntry) (failAt : Option Nat),
    runInserts pending entries failAt = some rows →
    rows = entries.foldl upsert pending := by
  induction entries with
  | nil =>
    intro pending rows failAt h
    cases h
    rfl
  | cons e es ih =>
    intro pending rows failAt h
    match failAt with
    | some 0 => exact Option.noConfusion h
    | some (n + 1) =>
      have h' : runInserts (upsert pending e) es (some n) = some rows := h
      rw [List.foldl_cons]
      exact ih _ rows _ h'
    | none =>
      have h' : runInserts (upsert pending e) es none = some rows := h
      rw [List.foldl_cons]
      exact ih _ rows _ h'

theorem foldl_upsert_of_nodup (entries : List AvailabilityEntry) :
    ∀ acc : List AvailabilityEntry, entries.Nodup →
    (∀ e ∈ entries, e ∉ acc) →
    entries.foldl upsert acc = acc ++ entries := by
  induction entries with
  | nil => intro acc _ _; simp
  | cons e es ih =>
    intro acc hnd hacc
    rcases List.nodup_cons.mp hnd with ⟨he, hes⟩
    rw [List.foldl_cons, upsert, if_neg (hacc e (List.mem_cons_self _ _))]
    rw [ih (acc ++ [e]) hes]
    · simp
    · intro x hx hmem
      rcases List.mem_append.mp hmem with hm | hm
      · exact hacc x (List.mem_cons_of_mem _ hx) hm
      · rw [List.mem_singleton.mp hm] at hx
        exact he hx

end ServerSqlite

namespace Supabase

/-- Outcome of `saveAvailabilityToSupabase` on the REST store's rows for one
skill level: the final row set and whether the function returned normally
(`ok = false` means it threw). The two `fetch` calls are modelled by two
flags; each is a single-statement PostgREST request, atomic server-side. The
unconfigured-environment early throw changes no rows and needs no separate
modelling. -/
structure SaveOutcome where
  store : List AvailabilityEntry
  ok : Bool
  deriving DecidableEq

/-- `saveAvailabilityToSupabase`: DELETE all rows for the skill level (on
failure throw with the store untouched); return early when the entry list is
empty (the store stays cleared); otherwise POST the new rows with
`resolution=merge-duplicates` onto the `(player_id, game_id)` primary key —
on success the rows are exactly the distinct pairs, on failure the function
throws with the store already cleared by the DELETE. -/
def saveAvailabilityToSupabase (store entries : List AvailabilityEntry)
    (deleteOk insertOk : Bool) : SaveOutcome :=
  if !deleteOk then ⟨store, false⟩
  else if entries.isEmpty then ⟨[], true⟩
  else if insertOk then ⟨dedupFirst entries, true⟩
  else ⟨[], false⟩

end Supabase

/-- Claim C7 (amended): the SQLite `handleWrite` replace is all-or-nothing —
on success the committed store holds exactly the (deduplicated, here
duplicate-free) new entry set, and on any failure the rollback leaves exactly
the prior store — while the Supabase `saveAvailabilityToSupabase` replace is
delete-then-insert: a failed DELETE leaves the prior rows and reports
failure, a successful run ends with exactly the new set, but an insert
failure after the delete reports failure with the store already cleared, not
holding the prior set. -/
theorem claim_C7_replace_all_or_nothing (store entries : List AvailabilityEntry)
    (failAt : Option Nat) (insertOk : Bool) (hnd : entries.Nodup) :
    ((ServerSqlite.handleWrite store entries failAt).2 = true →
      (ServerSqlite.handleWrite store entries failAt).1 = entries)
    ∧ ((ServerSqlite.handleWrite store entries failAt).2 = false →
      (ServerSqlite.handleWrite store entries failAt).1 = store)
    ∧ Supabase.saveAvailabilityToSupabase store entries false insertOk
        = ⟨store, false⟩
    ∧ (entries ≠ [] → Supabase.saveAvailabilityToSupabase store entries true true
        = ⟨dedupFirst entries, true⟩)
    ∧ (entries ≠ [] → Supabase.saveAvailabilityToSupabase store entries true false
        = ⟨[], false⟩) := by
  refine ⟨?_, ?_, rfl, ?_, ?_⟩
  · intro h
    rw [ServerSqlite.handleWrite] at h ⊢
    cases hrun : ServerSqlite.runInserts [] entries failAt with
    | none => rw [hrun] at h; exact absurd h (by simp)
    | some rows =>
      show rows = entries
      have := ServerSqlite.runInserts_eq_some entries [] rows failAt hrun
      rw [this, ServerSqlite.foldl_upsert_of_nodup entries [] hnd (by simp)]
      rfl
  · intro h
    rw [ServerSqlite.handleWrite] at h ⊢
    cases hrun : ServerSqlite.runInserts [] entries failAt with
    | none => rfl
    | some rows => rw [hrun] at h; exact absurd h (by simp)
  · intro h
    rw [Supabase.saveAvailabilityToSupabase]
    rw [if_neg (by simp), if_neg (by simpa using h), if_pos rfl]
  · intro h
    rw [Supabase.saveAvailabilityToSupabase]
    rw [if_neg (by simp), if_neg (by simpa using h)]
    rfl

/-- Witness for C7 at a concrete input: a successful SQLite replace commits
exactly the new entries. -/
theorem claim_C7_replace_all_or_nothing_witness :
    (ServerSqlite.handleWrite [⟨1, 1⟩] [⟨2, 2⟩] none).1 = [⟨2, 2⟩] :=
  (claim_C7_replace_all_or_nothing [⟨1, 1⟩] [⟨2, 2⟩] none true
    (by decide)).1 (by decide)

/-- Counterexample for C7 as frozen: in the Supabase backend, with prior rows
`[(1,1)]` and replacement `[(2,2)]`, a successful DELETE followed by a failed
POST reports failure but leaves the store cleared — not the unchanged prior
set the claim requires on failure. -/
theorem claim_C7_counterexample :
    Supabase.saveAvailabilityToSupabase [⟨1, 1⟩] [⟨2, 2⟩] true false
      = ⟨[], false⟩
    ∧ ([] : List AvailabilityEntry) ≠ [⟨1, 1⟩] := by
  refine ⟨by decide, by decide⟩

namespace Plugin

/-- One map step of the SQLite vite plugin's `normalizeEntries` (in
`supabaseAvailability.ts` after the document separator): non-objects map to
`null` (removed by `filter(Boolean)`); the raw fields must pass
`Number.isInteger` *before* any coercion — a numeric string is rejected here,
unlike the client and `part_005` — and then be positive. -/
def validEntry? : RawEntry → Option AvailabilityEntry
  | .nonObject => none
  | .obj p g =>
    match rawInt? p, rawInt? g with
    | some playerId, some gameId =>
      if playerId ≤ 0 ∨ gameId ≤ 0 then none else some ⟨playerId, gameId⟩
    | _, _ => none

/-- The plugin's `normalizeEntries`: throw on non-arrays, keep the valid
entries, enforce the 10,000 cap on the kept list *before* dedup (`if
(normalized.length > 10000) throw`), then dedup by pair. -/
def normalizeEntries (v : RawValue) : Except String (List AvailabilityEntry) :=
  match v with
  | .nonArray => .error "`entries` must be an array"
  | .arr items =>
    if 10000 < (items.filterMap validEntry?).length then
      .error "Too many entries in one request"
    else .ok (dedupFirst (items.filterMap validEntry?))

end Plugin

theorem filterMap_eq_map_of_forall {α β : Type} (f : α → Option β) (g : α → β)
    (l : List α) (h : ∀ a ∈ l, f a = some (g a)) : l.filterMap f = l.map g := by
  induction l with
  | nil => rfl
  | cons x xs ih =>
    rw [List.filterMap_cons, h x (List.mem_cons_self _ _), List.map_cons]
    rw [ih fun a ha => h a (List.mem_cons_of_mem _ ha)]

/-- Claim C8 (amended): the 10,000-entry cap lives in the server-side
normalizers only. `part_005`'s `normalizeEntries` succeeds exactly when the
*deduplicated* valid entries number at most 10,000, failing with `Too many
entries in one request` beyond, and on success returns exactly that
deduplicated set; the SQLite vite plugin's `normalizeEntries` applies the same
cap to the valid entries *before* dedup. The client-side `normalizeEntries`
in `App.tsx` applies no cap at all (see the counterexample). -/
theorem claim_C8_cap_ten_thousand (items : List RawEntry) :
    ((∃ l, ServerSqlite.normalizeEntries (.arr items) = .ok l)
      ↔ (dedupFirst (items.filterMap App.validEntry?)).length ≤ 10000)
    ∧ (10000 < (dedupFirst (items.filterMap App.validEntry?)).length →
        ServerSqlite.normalizeEntries (.arr items)
          = .error "Too many entries in one request")
    ∧ (∀ l, ServerSqlite.normalizeEntries (.arr items) = .ok l →
        l = dedupFirst (items.filterMap App.validEntry?))
    ∧ ((∃ l, Plugin.normalizeEntries (.arr items) = .ok l)
      ↔ (items.filterMap Plugin.validEntry?).length ≤ 10000) := by
  refine ⟨?_, ?_, ?_, ?_⟩
  · rw [ServerSqlite.normalizeEntries]
    by_cases hcap : 10000 < (dedupFirst (items.filterMap App.validEntry?)).length
    · rw [if_pos hcap]
      constructor
      · rintro ⟨l, hl⟩
        exact Except.noConfusion hl
      · intro h
        omega
    · rw [if_neg hcap]
      constructor
      · intro _
        omega
      · intro _
        exact ⟨_, rfl⟩
  · intro hcap
    rw [ServerSqlite.normalizeEntries, if_pos hcap]
  · intro l hl
    rw [ServerSqlite.normalizeEntries] at hl
    by_cases hcap : 10000 < (dedupFirst (items.filterMap App.validEntry?)).length
    · rw [if_pos hcap] at hl
      exact Except.noConfusion hl
    · rw [if_neg hcap] at hl
      cases hl
      rfl
  · rw [Plugin.normalizeEntries]
    by_cases hcap : 10000 < (items.filterMap Plugin.validEntry?).length
    · rw [if_pos hcap]
      constructor
      · rintro ⟨l, hl⟩
        exact Except.noConfusion hl
      · intro h
        omega
    · rw [if_neg hcap]
      constructor
      · intro _
        omega
      · intro _
        exact ⟨_, rfl⟩

/-- Witness for C8 at a concrete input: a two-item array passes the cap. -/
theorem claim_C8_cap_ten_thousand_witness :
    ServerSqlite.normalizeEntries (.arr [.obj (.int 1) (.int 2), .nonObject])
      = .ok [⟨1, 2⟩] := by
  have h := (claim_C8_cap_ten_thousand
    [.obj (.int 1) (.int 2), .nonObject]).2.2.1 [⟨1, 2⟩] rfl
  rw [h]
  rfl

/-- An array of 10,001 distinct valid entries (player ids 1..10001, game id
1), used to exercise the missing cap of the client-side normalizer. -/
def bigRawItems : List RawEntry :=
  (List.range 10001).map fun i : Nat => RawEntry.obj (.int ((i : Int) + 1)) (.int 1)

/-- Counterexample for C8 as frozen: the client-side `normalizeEntries` of
`App.tsx` — one of the normalizers the claim covers — returns a 10,001-entry
set on an input of 10,001 distinct valid entries instead of failing with a
payload-too-large error; it has no cap. -/
theorem claim_C8_counterexample :
    10000 < (App.normalizeEntries (.arr bigRawItems)).length := by
  have hmap : ∀ L : List Nat,
      (L.map fun i : Nat =>
        RawEntry.obj (.int ((i : Int) + 1)) (.int 1)).filterMap
        App.validEntry?
      = L.map fun i : Nat => (⟨(i : Int) + 1, 1⟩ : AvailabilityEntry) := by
    intro L
    induction L with
    | nil => rfl
    | cons x xs ih =>
      have hx : App.validEntry?
          (RawEntry.obj (.int ((x : Int) + 1)) (.int 1))
          = some ⟨(x : Int) + 1, 1⟩ := by
        simp only [App.validEntry?, numCoerce]
        rw [if_neg (by omega)]
      rw [List.map_cons, List.map_cons, List.filterMap_cons, hx, ih]
  have hinj : Function.Injective fun i : Nat =>
      (⟨(i : Int) + 1, 1⟩ : AvailabilityEntry) := by
    intro a b hab
    simp only [AvailabilityEntry.mk.injEq] at hab
    omega
  have hnd : ((List.range 10001).map fun i : Nat =>
      (⟨(i : Int) + 1, 1⟩ : AvailabilityEntry)).Nodup :=
    (List.nodup_range 10001).map hinj
  show 10000 < (dedupFirst ((((List.range 10001).map fun i : Nat =>
      RawEntry.obj (.int ((i : Int) + 1)) (.int 1))).filterMap
      App.validEntry?)).length
  rw [hmap (List.range 10001), dedupFirst_eq_self_of_nodup _ hnd,
    List.length_map, List.length_range]
  omega

/-- A replace-facts (PUT) request body as the handlers see it: either the
body text fails `JSON.parse`, or it parses and the handler reads its
`entries` field (missing or non-array fields are `RawValue.nonArray`). -/
inductive PutRequest where
  | badJson
  | payload (entries : RawValue)
  deriving DecidableEq

namespace ServerSqlite

/-- The PUT path of `part_005` `handleApi` (and identically the `createHandler`
of the SQLite vite plugin): the promise chain parses the body, normalizes and
writes; every rejection — invalid JSON from `readJsonBody`, the validation
throws of `normalizeEntries`, and storage faults alike — lands in the single
`.catch`, which responds 500 carrying the error's message (the JSON-parse and
storage messages are engine-dependent and modelled by representative
strings). Result: HTTP status and optional error message. -/
def handleApiPut (req : PutRequest) (storageOk : Bool) : Nat × Option String :=
  match req with
  | .badJson => (500, some "Unexpected end of JSON input")
  | .payload v =>
    match normalizeEntries v with
    | .error msg => (500, some msg)
    | .ok _ => if storageOk then (200, none) else (500, some "storage failure")

end ServerSqlite

namespace FileServer

/-- Response of the `part_000` PUT handler: status, optional error message,
and the entry list echoed back on success. -/
structure PutResponse where
  status : Nat
  error : Option String
  entries : List RawEntry
  deriving DecidableEq

/-- The PUT handler of `part_000` `registerAvailabilityRoutes`: a body that
`JSON.parse` rejects yields 400 `Invalid JSON`; a parsed body whose `entries`
is not an array yields 400 `Invalid payload`; otherwise the entries are
filtered by `isValidEntry`, saved, and echoed with status 200 (the file write
is assumed to succeed; its failure is an unhandled rejection in the
source). -/
def handlePut : PutRequest → PutResponse
  | .badJson => ⟨400, some "Invalid JSON", []⟩
  | .payload .nonArray => ⟨400, some "Invalid payload", []⟩
  | .payload (.arr items) => ⟨200, none, items.filter isValidEntry⟩

end FileServer

/-- Claim C9 (amended): in the SQLite servers (`part_005` and the vite
plugin), every failure of the PUT path — validation failures (non-array
`entries`, cap exceeded) and unparsable JSON included — is reported with
status 500 together with the error message, the same status as storage
failures, and only a fully successful request gets 200; the file-backed
server of `part_000` is the variant that answers 400 for invalid JSON and
non-array payloads. -/
theorem claim_C9_validation_status (v : RawValue) (msg : String)
    (storageOk : Bool) :
    (ServerSqlite.normalizeEntries v = .error msg →
      ServerSqlite.handleApiPut (.payload v) storageOk = (500, some msg))
    ∧ (ServerSqlite.handleApiPut .badJson storageOk).1 = 500
    ∧ (∀ l, ServerSqlite.normalizeEntries v = .ok l →
        ServerSqlite.handleApiPut (.payload v) false
            = (500, some "storage failure")
        ∧ ServerSqlite.handleApiPut (.payload v) true = (200, none))
    ∧ FileServer.handlePut .badJson = ⟨400, some "Invalid JSON", []⟩
    ∧ FileServer.handlePut (.payload .nonArray)
        = ⟨400, some "Invalid payload", []⟩ := by
  refine ⟨?_, rfl, ?_, rfl, rfl⟩
  · intro h
    rw [ServerSqlite.handleApiPut, h]
  · intro l hl
    rw [ServerSqlite.handleApiPut, ServerSqlite.handleApiPut, hl]
    exact ⟨rfl, rfl⟩

/-- Witness for C9 at a concrete input: an empty entries array is accepted
with 200, and with a storage fault the same request yields 500. -/
theorem claim_C9_validation_status_witness :
    ServerSqlite.handleApiPut (.payload (.arr [])) true = (200, none) :=
  ((claim_C9_validation_status (.arr []) "" true).2.2.1 [] rfl).2

/-- Counterexample for C9 as frozen: a payload whose `entries` is not an
array — a validation failure — makes the `part_005` handler respond 500 (with
the validation message), not the 400-equivalent the claim requires. -/
theorem claim_C9_counterexample :
    ServerSqlite.handleApiPut (.payload .nonArray) true
      = (500, some "`entries` must be an array")
    ∧ (500 : Nat) ≠ 400 := by
  refine ⟨rfl, by decide⟩
